import Mathlib

/-!
Verification of the genealogical birth-date estimator (src/main.py) against its
natural-language specification.

The program is shallowly embedded here.  Python strings are modelled as
`List Char` (so that every operation kernel-reduces); Python `str.split(sep)`
is `splitSub`, `str.strip()` is `trimStr`, `'pat' in s` is `hasSub`,
`s.split('#', 2)[0]` is `beforeHash`.  Python dicts (which preserve insertion
order and overwrite in place) are association lists with `alookup`/`setKey`.
Rows of the pandas matrices are total functions `List Char → ℤ` built by
sequential assignment (`updRow`); a constraint system is a list of
(row, bound) pairs, the matrix being the first projections and the bound
vector the second projections, so a row and its bound share a position by
construction.  Exceptions are `Except Err`.  Floats are modelled as ℚ, and
Python 3 `round` (banker's rounding) as `pythonRound`.
-/

set_option synthInstance.maxSize 4000

namespace Quraysh

/-- A Python string, modelled as its character list. -/
abbrev Str := List Char

/-- Python `s.split('#', 2)[0].strip()` first takes the text before the first
`'#'`; `split('#', maxsplit)[0]` is exactly `takeWhile (· ≠ '#')`. -/
def beforeHash (s : Str) : Str := s.takeWhile (fun c => c ≠ '#')

/-- Python `str.strip()`: drop whitespace from both ends. -/
def trimStr (s : Str) : Str :=
  ((s.dropWhile Char.isWhitespace).reverse.dropWhile Char.isWhitespace).reverse

/-- The comment-stripping prelude shared by `parse_variables` (src line 75),
`parse_relationships` (line 97) and `parse_inequalities` (line 217):
`line.split('#')[0].strip()`. -/
def stripC (s : Str) : Str := trimStr (beforeHash s)

/-- Python `s.startswith(pat)`. -/
def isPre : Str → Str → Bool
  | [], _ => true
  | _ :: _, [] => false
  | p :: ps, c :: cs => p = c && isPre ps cs

/-- Python `pat in s` (substring containment). -/
def hasSub (pat : Str) : Str → Bool
  | [] => isPre pat []
  | c :: rest => isPre pat (c :: rest) || hasSub pat rest

/-- Fuelled worker for `splitSub`; the fuel dominates the length of the
string argument, so with fuel `s.length` it is Python `split`. -/
def splitSubF (pat : Str) : ℕ → Str → List Str
  | 0, _ => [[]]
  | _ + 1, [] => [[]]
  | fuel + 1, c :: rest =>
    if pat ≠ [] ∧ isPre pat (c :: rest) = true then
      [] :: splitSubF pat fuel ((c :: rest).drop pat.length)
    else
      match splitSubF pat fuel rest with
      | [] => [[c]]
      | t :: ts => (c :: t) :: ts

/-- Python `s.split(pat)` for a non-empty separator: split at every
occurrence, keeping empty pieces, `[]` splitting to `[[]]`. -/
def splitSub (pat s : Str) : List Str := splitSubF pat s.length s

/-- Numeric value of a digit string. -/
def digitsVal (s : Str) : ℕ := s.foldl (fun a c => a * 10 + (c.toNat - ('0').toNat)) 0

/-- Python `int(s)`: optional surrounding whitespace, optional sign, then a
non-empty digit run; anything else raises `ValueError` (here `none`).
(Pythonic underscore digit grouping is not modelled.) -/
def parseInt (s : Str) : Option ℤ :=
  match trimStr s with
  | [] => none
  | '-' :: ds => if ds ≠ [] ∧ ds.all Char.isDigit then some (-(digitsVal ds : ℤ)) else none
  | '+' :: ds => if ds ≠ [] ∧ ds.all Char.isDigit then some ((digitsVal ds : ℤ)) else none
  | ds => if ds.all Char.isDigit then some ((digitsVal ds : ℤ)) else none

/-- An insertion-ordered Python dict (string keys and values). -/
abbrev AList := List (Str × Str)

/-- Python `d.get(k)` / `d[k]` / `k in d`: first (only) binding of `k`. -/
def alookup (m : AList) (k : Str) : Option Str :=
  match m with
  | [] => none
  | (k2, v) :: rest => if k2 = k then some v else alookup rest k

/-- Python `d[k] = v`: overwrite in place if present (keeping the key's
original position, as Python dicts do), else append at the end. -/
def setKey : AList → Str → Str → AList
  | [], k, v => [(k, v)]
  | (k2, v2) :: rest, k, v => if k2 = k then (k, v) :: rest else (k2, v2) :: setKey rest k v

/-- The exceptions the program can raise, one constructor per `raise` site,
carrying exactly the data the raise site formats into its message.
`noEquality` and `geNotAllowed` (src lines 219 and 221) format the running
inequality-row index `i`, not the loop's line number `l`; the constructor
field records the number actually shown. -/
inductive Err where
  | varFormat (line : ℕ)
  | relFormat (line : ℕ)
  | childUndeclared (line : ℕ) (name : Str)
  | parentUndeclared (line : ℕ) (name : Str)
  | dupFather (line : ℕ)
  | dupMother (line : ℕ)
  | noEquality (shown : ℤ)
  | geNotAllowed (shown : ℤ)
  | emptyItem (line : ℕ)
  | keyError (name : Str)
  | intParse (text : Str)
  | unpackMany (line : ℕ)
deriving DecidableEq

/-- String constant: the declaration keyword prefixes and the gender tag. -/
def maleTok : Str := ("male ").data

/-- String constant: the female declaration keyword prefix. -/
def femaleTok : Str := ("female ").data

/-- String constant: the gender value stored for males. -/
def maleStr : Str := ("male").data

/-- How `parse_variables` (src lines 74-84) classifies one raw line: a
well-formed gender declaration, a malformed declaration (the
`gender, name = line.split(' ')` unpacking fails), or a remaining line
(already comment-stripped, as the source reassigns `line` first). -/
inductive VClass where
  | decl (gender name : Str)
  | declErr
  | remLine (text : Str)
deriving DecidableEq

/-- Classification of a raw line by `parse_variables`: the line is
comment-stripped first, then tested for the `male `/`female ` prefixes,
then split on single spaces into exactly two tokens. -/
def vclassify (raw : Str) : VClass :=
  let l := stripC raw
  if isPre maleTok l || isPre femaleTok l then
    match splitSub ([' ']) l with
    | [g, n] => .decl g n
    | _ => .declErr
  else .remLine l

/-- The loop of `parse_variables` (src lines 71-85), with the gender dict
and remaining-line list as accumulators. -/
def pvAux : AList → List (ℕ × Str) → List (ℕ × Str) → Except Err (AList × List (ℕ × Str))
  | vars, rem, [] => .ok (vars, rem)
  | vars, rem, (i, raw) :: rest =>
    match vclassify raw with
    | .decl g n => pvAux (setKey vars n g) rem rest
    | .declErr => .error (.varFormat i)
    | .remLine l => pvAux vars (rem ++ [(i, l)]) rest

/-- `parse_variables` (src lines 71-85). -/
def parse_variables (lines : List (ℕ × Str)) : Except Err (AList × List (ℕ × Str)) :=
  pvAux [] [] lines

/-- The loop of `parse_relationships` (src lines 88-115).  A line containing
`=` is deferred untouched; otherwise the line is comment-stripped, split into
`child parent`, both names checked against the gender dict, and the pair filed
under fathers or mothers according to the parent's recorded gender, rejecting
a second father or mother for the same child. -/
def prAux (genders : AList) : AList → AList → List (ℕ × Str) → List (ℕ × Str) →
    Except Err (AList × AList × List (ℕ × Str))
  | fathers, mothers, acc, [] => .ok (fathers, mothers, acc)
  | fathers, mothers, acc, (i, line) :: rest =>
    if hasSub (['=']) line then prAux genders fathers mothers (acc ++ [(i, line)]) rest
    else
      match splitSub ([' ']) (stripC line) with
      | [child, par] =>
        if (alookup genders child).isSome = false then .error (.childUndeclared i child)
        else if (alookup genders par).isSome = false then .error (.parentUndeclared i par)
        else if alookup genders par = some maleStr then
          if (alookup fathers child).isSome then .error (.dupFather i)
          else prAux genders (setKey fathers child par) mothers acc rest
        else
          if (alookup mothers child).isSome then .error (.dupMother i)
          else prAux genders fathers (setKey mothers child par) acc rest
      | _ => .error (.relFormat i)

/-- `parse_relationships` (src lines 88-115). -/
def parse_relationships (genders : AList) (lines : List (ℕ × Str)) :
    Except Err (AList × AList × List (ℕ × Str)) :=
  prAux genders [] [] [] lines

/-- One row of the sparse constraint matrices: variable name to coefficient. -/
abbrev Row := Str → ℤ

/-- The fresh all-zero row `A.loc[i] = 0`. -/
def zeroRow : Row := fun _ => 0

/-- One cell assignment `A[name].loc[i] = v` (the later write wins). -/
def updRow (r : Row) (k : Str) (v : ℤ) : Row := fun n => if n = k then v else r n

-- Configuration constants (src lines 7-26).

/-- `FATHER_AGE_FOR_BIRTH` (src line 7): (min, max) paternal age at birth. -/
def FATHER_AGE_FOR_BIRTH : ℤ × ℤ := (15, 70)

/-- `MOTHER_AGE_FOR_BIRTH` (src line 8): (min, max) maternal age at birth. -/
def MOTHER_AGE_FOR_BIRTH : ℤ × ℤ := (15, 50)

/-- `MAX_AVERAGE_AGE_FOR_05_MALE_GENERATIONS` (src line 13). -/
def MAX_AVERAGE_AGE_FOR_05_MALE_GENERATIONS : ℤ := 60

/-- `MAX_AVERAGE_AGE_FOR_10_MALE_GENERATIONS` (src line 14). -/
def MAX_AVERAGE_AGE_FOR_10_MALE_GENERATIONS : ℤ := 45

/-- `MAX_AVERAGE_AGE_FOR_05_FEMALE_GENERATIONS` (src line 15). -/
def MAX_AVERAGE_AGE_FOR_05_FEMALE_GENERATIONS : ℤ := 40

/-- `MAX_AVERAGE_AGE_FOR_10_FEMALE_GENERATIONS` (src line 16). -/
def MAX_AVERAGE_AGE_FOR_10_FEMALE_GENERATIONS : ℤ := 35

/-- `ADD_AVERAGE_AGE_CONSTRAINTS` (src line 21), off by default. -/
def ADD_AVERAGE_AGE_CONSTRAINTS : Bool := false

/-- `QUANTILE_FROM_LATEST` (src line 26). -/
def QUANTILE_FROM_LATEST : ℚ := 0.4

/-- The two inequality rows emitted for one parent relationship
(`make_relationship_constraints` loop body, src lines 128-150):
`child - parent ≤ maxAge` and `parent - child ≤ -minAge`, each row paired
with its bound (so the bound sits in the matching `b_ub` position). -/
def relRowPair (child par : Str) (minAge maxAge : ℤ) : List (Row × ℤ) :=
  [(updRow (updRow zeroRow child 1) par (-1), maxAge),
   (updRow (updRow zeroRow child (-1)) par 1, minAge * (-1))]

/-- `make_relationship_constraints` (src lines 124-152): two rows per father
relationship (in dict order), then two rows per mother relationship. -/
def make_relationship_constraints (fathers mothers : AList) : List (Row × ℤ) :=
  fathers.flatMap (fun p => relRowPair p.1 p.2 FATHER_AGE_FOR_BIRTH.1 FATHER_AGE_FOR_BIRTH.2) ++
    mothers.flatMap (fun p => relRowPair p.1 p.2 MOTHER_AGE_FOR_BIRTH.1 MOTHER_AGE_FOR_BIRTH.2)

/-- The coefficient pattern shared by every average-age row
(`make_average_constraints` loop bodies): +1 on the walking child, -1 on the
ancestor reached. -/
def avgRow (child anc : Str) : Row := updRow (updRow zeroRow child 1) anc (-1)

/-- The `while True` walk of `make_average_constraints` (src lines 161-181 for
fathers, 186-206 for mothers): step to the next single-gender ancestor, stop
at the first name missing from the parent dict, and emit a row at every
generation distance `j ≥ 5`.  The Python loop is unbounded (it diverges on a
cyclic parent dict); the fuel parameter only truncates runs longer than the
fuel, so with fuel exceeding the chain length this is the source loop
exactly. -/
def avgLoop (parents : AList) (child : Str) (a5 a10 : ℤ) : Str → ℕ → ℕ → List (Row × ℤ)
  | _, _, 0 => []
  | cur, j, fuel + 1 =>
    match alookup parents cur with
    | none => []
    | some p =>
      let rest := avgLoop parents child a5 a10 p (j + 1) fuel
      if 10 ≤ j + 1 then (avgRow child p, a10 * ((j + 1 : ℕ) : ℤ)) :: rest
      else if 5 ≤ j + 1 then
        (avgRow child p, min (a5 * ((j + 1 : ℕ) : ℤ)) (a10 * 10)) :: rest
      else rest

/-- The ancestor chain the walk visits: repeated `parents.get`, ending at the
first missing name (or at fuel exhaustion). -/
def chainF (parents : AList) : Str → ℕ → List Str
  | _, 0 => []
  | cur, fuel + 1 =>
    match alookup parents cur with
    | none => []
    | some p => p :: chainF parents p fuel

/-- `make_average_constraints` (src lines 155-207): for every variable of the
objective index, append the male-chain rows, then for every variable the
female-chain rows.  A terminating (acyclic) walk visits at most
`parents.length` ancestors, so fuel `parents.length + 1` reproduces every
terminating run of the unbounded source loop. -/
def make_average_constraints (vars : List Str) (fathers mothers : AList)
    (ub : List (Row × ℤ)) : List (Row × ℤ) :=
  (ub ++ vars.flatMap (fun child =>
      avgLoop fathers child MAX_AVERAGE_AGE_FOR_05_MALE_GENERATIONS
        MAX_AVERAGE_AGE_FOR_10_MALE_GENERATIONS child 0 (fathers.length + 1))) ++
    vars.flatMap (fun child =>
      avgLoop mothers child MAX_AVERAGE_AGE_FOR_05_FEMALE_GENERATIONS
        MAX_AVERAGE_AGE_FOR_10_FEMALE_GENERATIONS child 0 (mothers.length + 1))

/-- The inequality system produced by `main` (src lines 48-50): relationship
rows always, average-age rows only under the `ADD_AVERAGE_AGE_CONSTRAINTS`
flag. -/
def compile_ub (flag : Bool) (vars : List Str) (fathers mothers : AList) : List (Row × ℤ) :=
  let ub := make_relationship_constraints fathers mothers
  if flag then make_average_constraints vars fathers mothers ub else ub

/-- LHS tokenization of a deferred expression line (src lines 224, 241):
split on single spaces, strip each piece, keep the non-empty ones. -/
def tokensOf (first : Str) : List Str :=
  ((splitSub ([' ']) first).map trimStr).filter (fun t => t ≠ [])

/-- One term of an expression LHS (src lines 229-237): `-name` writes -1 into
the name's column, `+name` and a bare name write +1; a name that is not a
column of the matrix raises a pandas `KeyError`.  `cols` is the column index
(the declared variables). -/
def coefStep (cols : List Str) (l : ℕ) (r : Row) (item : Str) : Except Err Row :=
  if item = [] then .error (.emptyItem l)
  else if isPre (['-']) item then
    if item.drop 1 ∈ cols then .ok (updRow r (item.drop 1) (-1))
    else .error (.keyError (item.drop 1))
  else if isPre (['+']) item then
    if item.drop 1 ∈ cols then .ok (updRow r (item.drop 1) 1)
    else .error (.keyError (item.drop 1))
  else
    if item ∈ cols then .ok (updRow r item 1) else .error (.keyError item)

/-- The coefficient loop over the LHS terms. -/
def coefFold (cols : List Str) (l : ℕ) : Row → List Str → Except Err Row
  | r, [] => .ok r
  | r, item :: rest =>
    match coefStep cols l r item with
    | .ok r2 => coefFold cols l r2 rest
    | .error e => .error e

/-- The loop of `parse_inequalities` (src lines 216-255).  Each deferred line
is comment-stripped, must contain `=`, must not contain `>=`; a `<=` line
appends one row to the inequality system and a bare `=` line one row to the
equality system, with an integer RHS.  The two error messages of src lines
219/221 format the running row index `len(b_ub) - 1`, recorded here in the
error value. -/
def piAux (cols : List Str) : List (Row × ℤ) → List (Row × ℤ) → List (ℕ × Str) →
    Except Err (List (Row × ℤ) × List (Row × ℤ))
  | ub, eqs, [] => .ok (ub, eqs)
  | ub, eqs, (l, raw) :: rest =>
    let line := stripC raw
    if hasSub (['=']) line = false then .error (.noEquality ((ub.length : ℤ) - 1))
    else if hasSub (['>', '=']) line then .error (.geNotAllowed ((ub.length : ℤ) - 1))
    else if hasSub (['<', '=']) line then
      match splitSub (['<', '=']) line with
      | [first, second] =>
        match coefFold cols l zeroRow (tokensOf first) with
        | .error e => .error e
        | .ok row =>
          match parseInt second with
          | some b => piAux cols (ub ++ [(row, b)]) eqs rest
          | none => .error (.intParse second)
      | _ => .error (.unpackMany l)
    else
      match splitSub (['=']) line with
      | [first, second] =>
        match coefFold cols l zeroRow (tokensOf first) with
        | .error e => .error e
        | .ok row =>
          match parseInt second with
          | some b => piAux cols ub (eqs ++ [(row, b)]) rest
          | none => .error (.intParse second)
      | _ => .error (.unpackMany l)

/-- `parse_inequalities` (src lines 210-257): extends the inequality system
and builds the equality system from the deferred lines. -/
def parse_inequalities (lines : List (ℕ × Str)) (cols : List Str) (ub : List (Row × ℤ)) :
    Except Err (List (Row × ℤ) × List (Row × ℤ)) :=
  piAux cols ub [] lines

/-- Python 3 `round` applied to a real value: nearest integer, ties to the
even neighbour. -/
def pythonRound (x : ℚ) : ℤ :=
  if x - ⌊x⌋ < 1 / 2 then ⌊x⌋
  else if (1 / 2 : ℚ) < x - ⌊x⌋ then ⌊x⌋ + 1
  else if ⌊x⌋ % 2 = 0 then ⌊x⌋ else ⌊x⌋ + 1

/-- The point estimate of src line 318:
`round(latest - (latest - earliest - 1) * q)`. -/
def pointEstimate (earliest latest : ℤ) (q : ℚ) : ℤ :=
  pythonRound ((latest : ℚ) - ((latest : ℚ) - (earliest : ℚ) - 1) * q)

/-- The argument record of one `scipy.optimize.linprog` invocation
(src lines 266-275 and 291-300). -/
structure LinprogArgs where
  obj : Row
  A_ub : List (Row × ℤ)
  A_eq : List (Row × ℤ)
  bounds : ℤ × ℤ
  maxiter : ℕ

/-- The fields of the scipy result object that `solve` reads: `success`,
`status`, `fun`.  The solver itself is the external black box; theorems about
`solve` quantify over it. -/
structure LPResult where
  success : Bool
  status : ℕ
  objVal : ℚ

/-- The four non-success diagnostics of src lines 278-285 / 303-310. -/
inductive FailKind where
  | iterLimit
  | infeasible
  | unbounded
  | numerical
deriving DecidableEq

/-- Which diagnostic the status-dispatch chain prints (src lines 278-285):
statuses 1-4 each get their own message, any other status prints none. -/
def statusDiag : ℕ → Option FailKind
  | 1 => some .iterLimit
  | 2 => some .infeasible
  | 3 => some .unbounded
  | 4 => some .numerical
  | _ => none

/-- What `solve` reports: a failure of the first (minimize) or second
(maximize) LP call with its diagnostic, or the range with the optional point
estimate (src line 318 prints no estimate when `earliest == latest`). -/
inductive SolveOutcome where
  | firstFailed (diag : Option FailKind)
  | secondFailed (diag : Option FailKind)
  | done (earliest latest : ℤ) (estimate : Option ℤ)
deriving DecidableEq

/-- The first `linprog` call of `solve` (src lines 265-275): objective with
`c.loc[target] = 1`, the compiled systems, box bounds `(-2000, 2000)`. -/
def lpCall1 (c0 : Row) (ub eqs : List (Row × ℤ)) (target : Str) (maxiter : ℕ) : LinprogArgs :=
  ⟨updRow c0 target 1, ub, eqs, (-2000, 2000), maxiter⟩

/-- The second `linprog` call (src lines 290-300): the same mutated series
with `c.loc[target] = -1` now, and the same remaining arguments. -/
def lpCall2 (c0 : Row) (ub eqs : List (Row × ℤ)) (target : Str) (maxiter : ℕ) : LinprogArgs :=
  ⟨updRow (updRow c0 target 1) target (-1), ub, eqs, (-2000, 2000), maxiter⟩

/-- `solve` (src lines 260-320), parametrized by the LP black box `lp` and
the quantile `q` (the source reads the module constant
`QUANTILE_FROM_LATEST`). -/
def solve (lp : LinprogArgs → LPResult) (c0 : Row) (ub eqs : List (Row × ℤ))
    (target : Str) (maxiter : ℕ) (q : ℚ) : SolveOutcome :=
  let r1 := lp (lpCall1 c0 ub eqs target maxiter)
  if r1.success = false then .firstFailed (statusDiag r1.status)
  else
    let e := pythonRound r1.objVal
    let r2 := lp (lpCall2 c0 ub eqs target maxiter)
    if r2.success = false then .secondFailed (statusDiag r2.status)
    else
      let l := pythonRound (r2.objVal * (-1))
      if e ≠ l then .done e l (some (pointEstimate e l q))
      else .done e l none

instance {ε α : Type} [DecidableEq ε] [DecidableEq α] : DecidableEq (Except ε α) := fun x y =>
  match x, y with
  | .ok a, .ok b =>
    if h : a = b then .isTrue (by rw [h]) else .isFalse (fun hc => h (by cases hc; rfl))
  | .error a, .error b =>
    if h : a = b then .isTrue (by rw [h]) else .isFalse (fun hc => h (by cases hc; rfl))
  | .ok _, .error _ => .isFalse (fun hc => by cases hc)
  | .error _, .ok _ => .isFalse (fun hc => by cases hc)

/-- The rows the average-age walk emits, as a function of the visited
ancestor chain: the ancestor at chain index `k` sits at generation distance
`j = j0 + k + 1`, gets a `min (a5*j) (a10*10)` row for `5 ≤ j ≤ 9`, an
`a10*j` row for `j ≥ 10`, and no row below distance 5. -/
def avgRowsFrom (child : Str) (a5 a10 : ℤ) : ℕ → List Str → List (Row × ℤ)
  | _, [] => []
  | j0, p :: rest =>
    if 10 ≤ j0 + 1 then
      (avgRow child p, a10 * ((j0 + 1 : ℕ) : ℤ)) :: avgRowsFrom child a5 a10 (j0 + 1) rest
    else if 5 ≤ j0 + 1 then
      (avgRow child p, min (a5 * ((j0 + 1 : ℕ) : ℤ)) (a10 * 10))
        :: avgRowsFrom child a5 a10 (j0 + 1) rest
    else avgRowsFrom child a5 a10 (j0 + 1) rest

/-- The name a gender declaration line declares, if any. -/
def declOf (raw : Str) : Option Str :=
  match vclassify raw with
  | .decl _ n => some n
  | _ => none

/-- The composition of the two parsing stages as `main` runs them
(src lines 37 and 46): collect all gender declarations first, then file all
relationship lines of the remainder. -/
def parseAll (lines : List (ℕ × Str)) : Except Err (AList × AList × List (ℕ × Str)) :=
  match parse_variables lines with
  | .error e => .error e
  | .ok (g, rem) => parse_relationships g rem

/-- Name resolution of the whole input: the gender recorded for `k` once
every line has been read. -/
def gLookupOf (lines : List (ℕ × Str)) (k : Str) : Option Str :=
  match parse_variables lines with
  | .error _ => none
  | .ok (g, _) => alookup g k

/-- Two gender dicts that resolve every name identically and hold the same
keys up to order. -/
def gequiv (m1 m2 : AList) : Prop :=
  (∀ k, alookup m1 k = alookup m2 k) ∧ (m1.map Prod.fst).Perm (m2.map Prod.fst)

/-- Result equivalence for `parse_variables`: same error, or same remaining
lines with `gequiv` gender dicts. -/
def pvEquiv : Except Err (AList × List (ℕ × Str)) → Except Err (AList × List (ℕ × Str)) → Prop
  | .error e1, .error e2 => e1 = e2
  | .ok (g1, r1), .ok (g2, r2) => gequiv g1 g2 ∧ r1 = r2
  | _, _ => False

/-- The variable name and the coefficient one LHS token contributes
(src lines 232-237): a `-` name prefix negates, a `+` prefix or a bare name
gives +1. -/
def tokName (t : Str) : Str :=
  if isPre (['-']) t then t.drop 1 else if isPre (['+']) t then t.drop 1 else t

/-- The coefficient written for one LHS token. -/
def tokCoef (t : Str) : ℤ := if isPre (['-']) t then -1 else 1

/-! ## Helper lemmas -/

theorem relRowPair_length (c p : Str) (mn mx : ℤ) : (relRowPair c p mn mx).length = 2 := rfl

theorem flatMap_rel_length (l : AList) (mn mx : ℤ) :
    (l.flatMap (fun p => relRowPair p.1 p.2 mn mx)).length = 2 * l.length := by
  induction l with
  | nil => rfl
  | cons hd tl ih =>
    simp only [List.flatMap_cons, List.length_append, relRowPair_length, ih, List.length_cons]
    ring

theorem flatMap_mem_decomp {α β : Type} (f : α → List β) {a : α} {l : List α} (h : a ∈ l) :
    ∃ s t, l.flatMap f = s ++ f a ++ t := by
  obtain ⟨s, t, rfl⟩ := List.append_of_mem h
  exact ⟨s.flatMap f, t.flatMap f, by simp⟩

theorem updRow_same (r : Row) (k : Str) (v : ℤ) : updRow r k v k = v := by
  simp [updRow]

theorem updRow_other (r : Row) (k n : Str) (v : ℤ) (h : n ≠ k) : updRow r k v n = r n := by
  simp [updRow, h]

/-! ## Claims -/

/-- C1: `make_relationship_constraints` appends exactly two inequality rows
per relationship (so the system has `2 * (|fathers| + |mothers|)` rows); for
every father relationship the two consecutive rows are
`child - parent ≤ 70` and `parent - child ≤ -15`, and for every mother
relationship `child - parent ≤ 50` and `parent - child ≤ -15`: the first row
carries +1 on the child and -1 on the parent, the second the mirrored signs,
0 on every other variable, and each bound sits at the matching position of
`b_ub` (the second projections).  The `child ≠ parent` hypothesis rules out
the degenerate self-parent input, where the two sequential cell assignments
would hit the same column. -/
theorem c1_relationship_rows (fathers mothers : AList) :
    (make_relationship_constraints fathers mothers).length
        = 2 * (fathers.length + mothers.length)
    ∧ (∀ child par, (child, par) ∈ fathers → child ≠ par →
        ∃ pre post r1 r2,
          make_relationship_constraints fathers mothers
              = pre ++ (r1, (70 : ℤ)) :: (r2, (-15 : ℤ)) :: post
            ∧ (make_relationship_constraints fathers mothers).map Prod.snd
              = pre.map Prod.snd ++ (70 : ℤ) :: (-15 : ℤ) :: post.map Prod.snd
            ∧ r1 child = 1 ∧ r1 par = -1 ∧ (∀ v, v ≠ child → v ≠ par → r1 v = 0)
            ∧ r2 child = -1 ∧ r2 par = 1 ∧ (∀ v, v ≠ child → v ≠ par → r2 v = 0))
    ∧ (∀ child par, (child, par) ∈ mothers → child ≠ par →
        ∃ pre post r1 r2,
          make_relationship_constraints fathers mothers
              = pre ++ (r1, (50 : ℤ)) :: (r2, (-15 : ℤ)) :: post
            ∧ (make_relationship_constraints fathers mothers).map Prod.snd
              = pre.map Prod.snd ++ (50 : ℤ) :: (-15 : ℤ) :: post.map Prod.snd
            ∧ r1 child = 1 ∧ r1 par = -1 ∧ (∀ v, v ≠ child → v ≠ par → r1 v = 0)
            ∧ r2 child = -1 ∧ r2 par = 1 ∧ (∀ v, v ≠ child → v ≠ par → r2 v = 0)) := by
  refine ⟨?_, ?_, ?_⟩
  · simp only [make_relationship_constraints, List.length_append, flatMap_rel_length]
    ring
  · intro child par hmem hne
    obtain ⟨s, t, hdec⟩ := flatMap_mem_decomp
      (fun p => relRowPair p.1 p.2 FATHER_AGE_FOR_BIRTH.1 FATHER_AGE_FOR_BIRTH.2) hmem
    refine ⟨s, t ++ mothers.flatMap
        (fun p => relRowPair p.1 p.2 MOTHER_AGE_FOR_BIRTH.1 MOTHER_AGE_FOR_BIRTH.2),
      updRow (updRow zeroRow child 1) par (-1), updRow (updRow zeroRow child (-1)) par 1,
      ?_, ?_, ?_, ?_, ?_, ?_, ?_, ?_⟩
    · simp only [make_relationship_constraints]
      rw [hdec]
      simp [relRowPair, FATHER_AGE_FOR_BIRTH]
    · simp only [make_relationship_constraints]
      rw [hdec]
      simp [relRowPair, FATHER_AGE_FOR_BIRTH]
    · rw [updRow_other _ _ _ _ hne, updRow_same]
    · rw [updRow_same]
    · intro v hvc hvp
      rw [updRow_other _ _ _ _ hvp, updRow_other _ _ _ _ hvc]
      rfl
    · rw [updRow_other _ _ _ _ hne, updRow_same]
    · rw [updRow_same]
    · intro v hvc hvp
      rw [updRow_other _ _ _ _ hvp, updRow_other _ _ _ _ hvc]
      rfl
  · intro child par hmem hne
    obtain ⟨s, t, hdec⟩ := flatMap_mem_decomp
      (fun p => relRowPair p.1 p.2 MOTHER_AGE_FOR_BIRTH.1 MOTHER_AGE_FOR_BIRTH.2) hmem
    refine ⟨fathers.flatMap
        (fun p => relRowPair p.1 p.2 FATHER_AGE_FOR_BIRTH.1 FATHER_AGE_FOR_BIRTH.2) ++ s, t,
      updRow (updRow zeroRow child 1) par (-1), updRow (updRow zeroRow child (-1)) par 1,
      ?_, ?_, ?_, ?_, ?_, ?_, ?_, ?_⟩
    · simp only [make_relationship_constraints]
      rw [hdec]
      simp [relRowPair, MOTHER_AGE_FOR_BIRTH]
    · simp only [make_relationship_constraints]
      rw [hdec]
      simp [relRowPair, MOTHER_AGE_FOR_BIRTH]
    · rw [updRow_other _ _ _ _ hne, updRow_same]
    · rw [updRow_same]
    · intro v hvc hvp
      rw [updRow_other _ _ _ _ hvp, updRow_other _ _ _ _ hvc]
      rfl
    · rw [updRow_other _ _ _ _ hne, updRow_same]
    · rw [updRow_same]
    · intro v hvc hvp
      rw [updRow_other _ _ _ _ hvp, updRow_other _ _ _ _ hvc]
      rfl

/-- Rounding an integer is the identity. -/
theorem pythonRound_int (n : ℤ) : pythonRound ((n : ℚ)) = n := by
  simp only [pythonRound, Int.floor_intCast, sub_self]
  norm_num

/-- Unfolding of `solve` on a pair of successful results. -/
theorem solve_done (lp : LinprogArgs → LPResult) (c0 : Row) (ub eqs : List (Row × ℤ))
    (target : Str) (maxiter : ℕ) (q : ℚ)
    (h1 : (lp (lpCall1 c0 ub eqs target maxiter)).success = true)
    (h2 : (lp (lpCall2 c0 ub eqs target maxiter)).success = true) :
    solve lp c0 ub eqs target maxiter q =
      (if pythonRound (lp (lpCall1 c0 ub eqs target maxiter)).objVal
          ≠ pythonRound ((lp (lpCall2 c0 ub eqs target maxiter)).objVal * (-1)) then
        SolveOutcome.done (pythonRound (lp (lpCall1 c0 ub eqs target maxiter)).objVal)
          (pythonRound ((lp (lpCall2 c0 ub eqs target maxiter)).objVal * (-1)))
          (some (pointEstimate (pythonRound (lp (lpCall1 c0 ub eqs target maxiter)).objVal)
            (pythonRound ((lp (lpCall2 c0 ub eqs target maxiter)).objVal * (-1))) q))
      else
        SolveOutcome.done (pythonRound (lp (lpCall1 c0 ub eqs target maxiter)).objVal)
          (pythonRound ((lp (lpCall2 c0 ub eqs target maxiter)).objVal * (-1))) none) := by
  rw [solve]
  simp only [h1, h2]
  norm_num

/-- Witness for C1, at the one-father one-mother input of the spec's
end-to-end scenario. -/
theorem c1_relationship_rows_witness :
    ∃ pre post r1 r2,
      make_relationship_constraints [(("c".data), ("f".data))] [(("c".data), ("m".data))]
          = pre ++ (r1, (70 : ℤ)) :: (r2, (-15 : ℤ)) :: post
        ∧ (make_relationship_constraints [(("c".data), ("f".data))]
              [(("c".data), ("m".data))]).map Prod.snd
          = pre.map Prod.snd ++ (70 : ℤ) :: (-15 : ℤ) :: post.map Prod.snd
        ∧ r1 ("c".data) = 1 ∧ r1 ("f".data) = -1
        ∧ (∀ v, v ≠ ("c".data) → v ≠ ("f".data) → r1 v = 0)
        ∧ r2 ("c".data) = -1 ∧ r2 ("f".data) = 1
        ∧ (∀ v, v ≠ ("c".data) → v ≠ ("f".data) → r2 v = 0) :=
  (c1_relationship_rows [(("c".data), ("f".data))] [(("c".data), ("m".data))]).2.1
    ("c".data) ("f".data) (by decide) (by decide)

/-- C2: whenever `solve` reports a range with `earliest ≠ latest`, the point
estimate it reports is `round(latest - (latest - earliest - 1) * q)` for the
configured quantile `q`; in particular for the range [1900, 2000] with the
default quantile 0.4 the estimate is 1960. -/
theorem c2_point_estimate (lp : LinprogArgs → LPResult) (c0 : Row) (ub eqs : List (Row × ℤ))
    (target : Str) (maxiter : ℕ) (q : ℚ) :
    (∀ e l est, solve lp c0 ub eqs target maxiter q = .done e l est → e ≠ l →
        est = some (pythonRound ((l : ℚ) - ((l : ℚ) - (e : ℚ) - 1) * q)))
    ∧ pointEstimate 1900 2000 QUANTILE_FROM_LATEST = 1960 := by
  constructor
  · intro e l est hsolve hne
    simp only [solve] at hsolve
    split at hsolve
    · cases hsolve
    · split at hsolve
      · cases hsolve
      · split at hsolve
        · cases hsolve
          rfl
        · cases hsolve
          rename_i hcond
          exact absurd hne (by simpa using hcond)
  · have hq : ((2000 : ℚ) - ((2000 : ℚ) - (1900 : ℚ) - 1) * QUANTILE_FROM_LATEST)
        = 9802 / 5 := by
      norm_num [QUANTILE_FROM_LATEST]
    have hf : (⌊(9802 / 5 : ℚ)⌋ : ℤ) = 1960 := by norm_num [Int.floor_eq_iff]
    rw [pointEstimate, pythonRound]
    push_cast
    rw [hq, hf]
    norm_num

/-- Witness for C2: a black-box LP answering 1900 to the minimize call and
-2000 (so latest 2000) to the maximize call. -/
theorem c2_point_estimate_witness :
    some (1960 : ℤ)
        = some (pythonRound ((2000 : ℚ) - ((2000 : ℚ) - ((1900 : ℤ) : ℚ) - 1)
            * QUANTILE_FROM_LATEST))
      ∧ pointEstimate 1900 2000 QUANTILE_FROM_LATEST = 1960 := by
  have happ := c2_point_estimate
    (fun a => if a.obj (("t").data) = 1 then ⟨true, 0, 1900⟩ else ⟨true, 0, -2000⟩)
    zeroRow [] [] (("t").data) 1000 QUANTILE_FROM_LATEST
  have hpe : pointEstimate 1900 2000 QUANTILE_FROM_LATEST = 1960 := happ.2
  refine ⟨?_, hpe⟩
  have h1900 : pythonRound ((1900 : ℚ)) = 1900 := by
    have h : ((1900 : ℚ)) = (((1900 : ℤ) : ℚ)) := by norm_num
    rw [h, pythonRound_int]
  have h2000 : pythonRound ((2000 : ℚ)) = 2000 := by
    have h : ((2000 : ℚ)) = (((2000 : ℤ) : ℚ)) := by norm_num
    rw [h, pythonRound_int]
  have hsolve : solve
      (fun a => if a.obj (("t").data) = 1 then ⟨true, 0, 1900⟩ else ⟨true, 0, -2000⟩)
      zeroRow [] [] (("t").data) 1000 QUANTILE_FROM_LATEST
      = .done 1900 2000 (some 1960) := by
    rw [solve_done _ _ _ _ _ _ _ (by simp [lpCall1, updRow]) (by simp [lpCall2, updRow])]
    simp only [lpCall1, lpCall2, updRow]
    norm_num [h1900, h2000, hpe]
  have := happ.1 1900 2000 (some 1960) hsolve (by decide)
  simpa using this

/-- C9: when both LP calls succeed and the two rounded optima coincide at a
single year `Y`, `solve` reports exactly that single year as the range and no
separate quantile estimate, and the whole report is independent of the
configured quantile. -/
theorem c9_degenerate_range (lp : LinprogArgs → LPResult) (c0 : Row) (ub eqs : List (Row × ℤ))
    (target : Str) (maxiter : ℕ) (q q2 : ℚ) (Y : ℤ)
    (h1 : (lp (lpCall1 c0 ub eqs target maxiter)).success = true)
    (h2 : (lp (lpCall2 c0 ub eqs target maxiter)).success = true)
    (he : pythonRound (lp (lpCall1 c0 ub eqs target maxiter)).objVal = Y)
    (hl : pythonRound ((lp (lpCall2 c0 ub eqs target maxiter)).objVal * (-1)) = Y) :
    solve lp c0 ub eqs target maxiter q = .done Y Y none
    ∧ solve lp c0 ub eqs target maxiter q = solve lp c0 ub eqs target maxiter q2 := by
  have hq : solve lp c0 ub eqs target maxiter q = .done Y Y none := by
    rw [solve_done lp c0 ub eqs target maxiter q h1 h2, he, hl]
    simp
  have hq2 : solve lp c0 ub eqs target maxiter q2 = .done Y Y none := by
    rw [solve_done lp c0 ub eqs target maxiter q2 h1 h2, he, hl]
    simp
  exact ⟨hq, by rw [hq, hq2]⟩

/-- Witness for C9: a black-box LP answering 1950 to the minimize call and
-1950 to the maximize call, determining the single year 1950. -/
theorem c9_degenerate_range_witness :
    solve (fun a => if a.obj (("t").data) = 1 then ⟨true, 0, 1950⟩ else ⟨true, 0, -1950⟩)
        zeroRow [] [] (("t").data) 1000 QUANTILE_FROM_LATEST = .done 1950 1950 none
    ∧ solve (fun a => if a.obj (("t").data) = 1 then ⟨true, 0, 1950⟩ else ⟨true, 0, -1950⟩)
        zeroRow [] [] (("t").data) 1000 QUANTILE_FROM_LATEST
      = solve (fun a => if a.obj (("t").data) = 1 then ⟨true, 0, 1950⟩ else ⟨true, 0, -1950⟩)
        zeroRow [] [] (("t").data) 1000 ((3 : ℚ) / 4) := by
  refine c9_degenerate_range _ zeroRow [] [] (("t").data) 1000 QUANTILE_FROM_LATEST
    ((3 : ℚ) / 4) 1950 (by simp [lpCall1, updRow]) (by simp [lpCall2, updRow]) ?_ ?_
  · have h : ((fun (a : LinprogArgs) =>
        if a.obj (("t").data) = 1 then (⟨true, 0, 1950⟩ : LPResult) else ⟨true, 0, -1950⟩)
          (lpCall1 zeroRow [] [] (("t").data) 1000)).objVal = ((1950 : ℤ) : ℚ) := by
      simp [lpCall1, updRow]
    rw [h, pythonRound_int]
  · have h : ((fun (a : LinprogArgs) =>
        if a.obj (("t").data) = 1 then (⟨true, 0, 1950⟩ : LPResult) else ⟨true, 0, -1950⟩)
          (lpCall2 zeroRow [] [] (("t").data) 1000)).objVal * (-1) = ((1950 : ℤ) : ℚ) := by
      simp [lpCall2, updRow]
    rw [h, pythonRound_int]

/-- C7: between the minimize and the maximize `linprog` calls the constraint
system is unchanged — the inequality system, equality system, box bounds and
iteration cap of the second call are those of the first — and the only
difference is the objective: +1 at the target in the first call, −1 in the
second, all other coefficients untouched.  On success of the second call the
reported `latest` is `round(-optimum)`. -/
theorem c7_solver_frame (lp : LinprogArgs → LPResult) (c0 : Row) (ub eqs : List (Row × ℤ))
    (target : Str) (maxiter : ℕ) (q : ℚ) :
    (lpCall2 c0 ub eqs target maxiter).A_ub = (lpCall1 c0 ub eqs target maxiter).A_ub
    ∧ (lpCall2 c0 ub eqs target maxiter).A_eq = (lpCall1 c0 ub eqs target maxiter).A_eq
    ∧ (lpCall2 c0 ub eqs target maxiter).bounds = (lpCall1 c0 ub eqs target maxiter).bounds
    ∧ (lpCall2 c0 ub eqs target maxiter).maxiter = (lpCall1 c0 ub eqs target maxiter).maxiter
    ∧ (lpCall1 c0 ub eqs target maxiter).obj target = 1
    ∧ (lpCall2 c0 ub eqs target maxiter).obj target = -1
    ∧ (∀ v, v ≠ target →
        (lpCall2 c0 ub eqs target maxiter).obj v = (lpCall1 c0 ub eqs target maxiter).obj v)
    ∧ (∀ e l est, solve lp c0 ub eqs target maxiter q = .done e l est →
        l = pythonRound ((lp (lpCall2 c0 ub eqs target maxiter)).objVal * (-1))) := by
  refine ⟨rfl, rfl, rfl, rfl, updRow_same _ _ _, updRow_same _ _ _, ?_, ?_⟩
  · intro v hv
    simp only [lpCall1, lpCall2]
    rw [updRow_other _ _ _ _ hv]
  · intro e l est hsolve
    simp only [solve] at hsolve
    split at hsolve
    · cases hsolve
    · split at hsolve
      · cases hsolve
      · split at hsolve
        · cases hsolve
          rfl
        · cases hsolve
          rfl

/-- Witness for C7: the frame equalities and the `latest` formula at a
concrete black-box LP returning -1955 for the maximize call. -/
theorem c7_solver_frame_witness :
    (lpCall2 zeroRow [] [] (("t").data) 1000).A_ub
        = (lpCall1 zeroRow [] [] (("t").data) 1000).A_ub
    ∧ (lpCall2 zeroRow [] [] (("t").data) 1000).obj (("v").data)
        = (lpCall1 zeroRow [] [] (("t").data) 1000).obj (("v").data)
    ∧ (1955 : ℤ) = pythonRound
        (((fun (a : LinprogArgs) =>
            if a.obj (("t").data) = 1 then (⟨true, 0, 1950⟩ : LPResult)
            else ⟨true, 0, -1955⟩) (lpCall2 zeroRow [] [] (("t").data) 1000)).objVal * (-1)) := by
  have happ := c7_solver_frame
    (fun (a : LinprogArgs) =>
      if a.obj (("t").data) = 1 then (⟨true, 0, 1950⟩ : LPResult) else ⟨true, 0, -1955⟩)
    zeroRow [] [] (("t").data) 1000 QUANTILE_FROM_LATEST
  refine ⟨happ.1, happ.2.2.2.2.2.2.1 (("v").data) (by decide), ?_⟩
  have h1950 : pythonRound ((1950 : ℚ)) = 1950 := by
    have h : ((1950 : ℚ)) = (((1950 : ℤ) : ℚ)) := by norm_num
    rw [h, pythonRound_int]
  have h1955 : pythonRound ((1955 : ℚ)) = 1955 := by
    have h : ((1955 : ℚ)) = (((1955 : ℤ) : ℚ)) := by norm_num
    rw [h, pythonRound_int]
  have hsolve : solve
      (fun (a : LinprogArgs) =>
        if a.obj (("t").data) = 1 then (⟨true, 0, 1950⟩ : LPResult) else ⟨true, 0, -1955⟩)
      zeroRow [] [] (("t").data) 1000 QUANTILE_FROM_LATEST
      = .done 1950 1955 (some (pointEstimate 1950 1955 QUANTILE_FROM_LATEST)) := by
    rw [solve_done _ _ _ _ _ _ _ (by simp [lpCall1, updRow]) (by simp [lpCall2, updRow])]
    simp only [lpCall1, lpCall2, updRow]
    norm_num [h1950, h1955]
  exact happ.2.2.2.2.2.2.2 1950 1955 (some (pointEstimate 1950 1955 QUANTILE_FROM_LATEST)) hsolve

/-- C8: under the scipy `linprog` contract (statuses 0-4, success exactly at
status 0), every non-success of either LP call makes `solve` report the
failure of that call with the status-determined diagnostic — status 1 the
iteration limit, status 2 infeasibility, status 3 unboundedness, and every
other non-success status (hence status 4) the numerical-difficulty message —
the four diagnostics are pairwise distinct, and no range or point estimate is
reported. -/
theorem c8_failure_reporting (lp : LinprogArgs → LPResult) (c0 : Row) (ub eqs : List (Row × ℤ))
    (target : Str) (maxiter : ℕ) (q : ℚ)
    (hc1 : (lp (lpCall1 c0 ub eqs target maxiter)).status ≤ 4)
    (hs1 : (lp (lpCall1 c0 ub eqs target maxiter)).success = true
        ↔ (lp (lpCall1 c0 ub eqs target maxiter)).status = 0)
    (hc2 : (lp (lpCall2 c0 ub eqs target maxiter)).status ≤ 4)
    (hs2 : (lp (lpCall2 c0 ub eqs target maxiter)).success = true
        ↔ (lp (lpCall2 c0 ub eqs target maxiter)).status = 0) :
    ((lp (lpCall1 c0 ub eqs target maxiter)).success = false →
        solve lp c0 ub eqs target maxiter q
            = .firstFailed (statusDiag (lp (lpCall1 c0 ub eqs target maxiter)).status)
        ∧ (∃ k, statusDiag (lp (lpCall1 c0 ub eqs target maxiter)).status = some k)
        ∧ (∀ e l est, solve lp c0 ub eqs target maxiter q ≠ .done e l est))
    ∧ ((lp (lpCall1 c0 ub eqs target maxiter)).success = true →
        (lp (lpCall2 c0 ub eqs target maxiter)).success = false →
        solve lp c0 ub eqs target maxiter q
            = .secondFailed (statusDiag (lp (lpCall2 c0 ub eqs target maxiter)).status)
        ∧ (∃ k, statusDiag (lp (lpCall2 c0 ub eqs target maxiter)).status = some k)
        ∧ (∀ e l est, solve lp c0 ub eqs target maxiter q ≠ .done e l est))
    ∧ (statusDiag 1 = some .iterLimit ∧ statusDiag 2 = some .infeasible
        ∧ statusDiag 3 = some .unbounded ∧ statusDiag 4 = some .numerical)
    ∧ (∀ s, s ≤ 4 → s ≠ 0 → s ≠ 1 → s ≠ 2 → s ≠ 3 → statusDiag s = some .numerical)
    ∧ ([FailKind.iterLimit, FailKind.infeasible, FailKind.unbounded,
        FailKind.numerical].Nodup) := by
  have hdiag : ∀ s : ℕ, s ≤ 4 → s ≠ 0 → ∃ k, statusDiag s = some k := by
    intro s hle hne
    interval_cases s
    · exact absurd rfl hne
    · exact ⟨.iterLimit, rfl⟩
    · exact ⟨.infeasible, rfl⟩
    · exact ⟨.unbounded, rfl⟩
    · exact ⟨.numerical, rfl⟩
  refine ⟨?_, ?_, ⟨rfl, rfl, rfl, rfl⟩, ?_, by decide⟩
  · intro hfail
    have hsolve : solve lp c0 ub eqs target maxiter q
        = .firstFailed (statusDiag (lp (lpCall1 c0 ub eqs target maxiter)).status) := by
      rw [solve]
      simp [hfail]
    refine ⟨hsolve, hdiag _ hc1 ?_, ?_⟩
    · intro h0
      rw [hs1.mpr h0] at hfail
      cases hfail
    · intro e l est hdone
      rw [hsolve] at hdone
      cases hdone
  · intro hok hfail
    have hsolve : solve lp c0 ub eqs target maxiter q
        = .secondFailed (statusDiag (lp (lpCall2 c0 ub eqs target maxiter)).status) := by
      rw [solve]
      simp [hok, hfail]
    refine ⟨hsolve, hdiag _ hc2 ?_, ?_⟩
    · intro h0
      rw [hs2.mpr h0] at hfail
      cases hfail
    · intro e l est hdone
      rw [hsolve] at hdone
      cases hdone
  · intro s hle h0 h1 h2 h3
    interval_cases s
    · exact absurd rfl h0
    · exact absurd rfl h1
    · exact absurd rfl h2
    · exact absurd rfl h3
    · rfl

/-- Witness for C8: an LP that reports infeasibility (status 2) on every
call. -/
theorem c8_failure_reporting_witness :
    solve (fun (_ : LinprogArgs) => (⟨false, 2, 0⟩ : LPResult))
        zeroRow [] [] (("t").data) 1000 QUANTILE_FROM_LATEST
      = .firstFailed (statusDiag
          ((fun (_ : LinprogArgs) => (⟨false, 2, 0⟩ : LPResult))
            (lpCall1 zeroRow [] [] (("t").data) 1000)).status)
    ∧ statusDiag 2 = some .infeasible := by
  have happ := c8_failure_reporting (fun (_ : LinprogArgs) => (⟨false, 2, 0⟩ : LPResult))
    zeroRow [] [] (("t").data) 1000 QUANTILE_FROM_LATEST
    (by decide) (by decide) (by decide) (by decide)
  exact ⟨(happ.1 (by decide)).1, happ.2.2.1.2.1⟩

theorem avgLoop_eq_chain (parents : AList) (child : Str) (a5 a10 : ℤ) :
    ∀ fuel cur j, avgLoop parents child a5 a10 cur j fuel
      = avgRowsFrom child a5 a10 j (chainF parents cur fuel) := by
  intro fuel
  induction fuel with
  | zero => intro cur j; rfl
  | succ n ih =>
    intro cur j
    cases halk : alookup parents cur with
    | none => simp only [avgLoop, chainF, halk]; rfl
    | some p =>
      simp only [avgLoop, chainF, halk, avgRowsFrom, ih]

theorem chainF_link (parents : AList) :
    ∀ fuel cur, (chainF parents cur fuel).length < fuel →
      ∀ k x, (cur :: chainF parents cur fuel).get? k = some x →
        (chainF parents cur fuel).get? k = alookup parents x := by
  intro fuel
  induction fuel with
  | zero => intro cur h; exact absurd h (Nat.not_lt_zero _)
  | succ n ih =>
    intro cur hlen k x hget
    cases halk : alookup parents cur with
    | none =>
      simp only [chainF, halk] at hget ⊢
      cases k with
      | zero =>
        simp only [List.get?] at hget
        cases hget
        simpa using halk.symm
      | succ m => simp [List.get?] at hget
    | some p =>
      simp only [chainF, halk] at hlen hget ⊢
      cases k with
      | zero =>
        simp only [List.get?] at hget
        cases hget
        simpa using halk.symm
      | succ m =>
        have hlen2 : (chainF parents p n).length < n := by
          simp only [List.length_cons] at hlen
          omega
        exact ih p hlen2 m x hget

theorem avgRowsFrom_length (child : Str) (a5 a10 : ℤ) :
    ∀ ch j0, (avgRowsFrom child a5 a10 j0 ch).length = j0 + ch.length - max 4 j0 := by
  intro ch
  induction ch with
  | nil => intro j0; simp only [avgRowsFrom, List.length_nil]; omega
  | cons p rest ih =>
    intro j0
    rw [avgRowsFrom]
    by_cases h10 : 10 ≤ j0 + 1
    · rw [if_pos h10]
      simp only [List.length_cons, ih]
      omega
    · rw [if_neg h10]
      by_cases h5 : 5 ≤ j0 + 1
      · rw [if_pos h5]
        simp only [List.length_cons, ih]
        omega
      · rw [if_neg h5]
        rw [ih]
        simp only [List.length_cons]
        omega

theorem avgRowsFrom_tail (child : Str) (a5 a10 : ℤ) (j0 : ℕ) (q : Str) (rest : List Str)
    (y : Row × ℤ) (h : y ∈ avgRowsFrom child a5 a10 (j0 + 1) rest) :
    y ∈ avgRowsFrom child a5 a10 j0 (q :: rest) := by
  rw [avgRowsFrom]
  by_cases h10 : 10 ≤ j0 + 1
  · rw [if_pos h10]
    exact List.mem_cons_of_mem _ h
  · rw [if_neg h10]
    by_cases h5 : 5 ≤ j0 + 1
    · rw [if_pos h5]
      exact List.mem_cons_of_mem _ h
    · rw [if_neg h5]
      exact h

theorem avgRowsFrom_mem (child : Str) (a5 a10 : ℤ) :
    ∀ ch j0 k p, ch.get? k = some p →
      (10 ≤ j0 + k + 1 →
        (avgRow child p, a10 * ((j0 + k + 1 : ℕ) : ℤ)) ∈ avgRowsFrom child a5 a10 j0 ch)
      ∧ (5 ≤ j0 + k + 1 → j0 + k + 1 ≤ 9 →
        (avgRow child p, min (a5 * ((j0 + k + 1 : ℕ) : ℤ)) (a10 * 10))
          ∈ avgRowsFrom child a5 a10 j0 ch) := by
  intro ch
  induction ch with
  | nil => intro j0 k p hget; simp [List.get?] at hget
  | cons q rest ih =>
    intro j0 k p hget
    cases k with
    | zero =>
      simp only [List.get?] at hget
      cases hget
      constructor
      · intro h10
        rw [avgRowsFrom, if_pos (by omega : 10 ≤ j0 + 1)]
        exact List.mem_cons_self _ _
      · intro h5 h9
        rw [avgRowsFrom, if_neg (by omega : ¬ 10 ≤ j0 + 1), if_pos (by omega : 5 ≤ j0 + 1)]
        exact List.mem_cons_self _ _
    | succ m =>
      simp only [List.get?] at hget
      have hrec := ih (j0 + 1) m p hget
      have heq : j0 + 1 + m + 1 = j0 + (m + 1) + 1 := by omega
      constructor
      · intro h10
        have h := hrec.1 (by omega)
        rw [heq] at h
        exact avgRowsFrom_tail _ _ _ _ _ _ _ h
      · intro h5 h9
        have h := (hrec.2 (by omega)) (by omega)
        rw [heq] at h
        exact avgRowsFrom_tail _ _ _ _ _ _ _ h

/-- C3 counterexample: an eleven-deep pure-male line.  The walk from `a0`
visits eleven fathers and emits seven rows, the last one bounding
`a0 - b1 ≤ 45 * 11 = 495` where `b1` is the 11th ancestor — a row beyond the
10th step, and with bound `avg10 * 11`, not only at the 10th ancestor as the
claim states (the compiled bounds would be six rows ending at 450 were the
claim true). -/
theorem c3_counterexample :
    ((make_average_constraints [(("a0").data)]
        [((("a0").data), (("a1").data)), ((("a1").data), (("a2").data)),
         ((("a2").data), (("a3").data)), ((("a3").data), (("a4").data)),
         ((("a4").data), (("a5").data)), ((("a5").data), (("a6").data)),
         ((("a6").data), (("a7").data)), ((("a7").data), (("a8").data)),
         ((("a8").data), (("a9").data)), ((("a9").data), (("b0").data)),
         ((("b0").data), (("b1").data))] [] []).map Prod.snd
      = [300, 360, 420, 450, 450, 450, 495])
    ∧ ((make_average_constraints [(("a0").data)]
        [((("a0").data), (("a1").data)), ((("a1").data), (("a2").data)),
         ((("a2").data), (("a3").data)), ((("a3").data), (("a4").data)),
         ((("a4").data), (("a5").data)), ((("a5").data), (("a6").data)),
         ((("a6").data), (("a7").data)), ((("a7").data), (("a8").data)),
         ((("a8").data), (("a9").data)), ((("a9").data), (("b0").data)),
         ((("b0").data), (("b1").data))] [] []).map (fun rb => rb.1 (("b1").data))
      = [0, 0, 0, 0, 0, 0, -1])
    ∧ ¬ ((make_average_constraints [(("a0").data)]
        [((("a0").data), (("a1").data)), ((("a1").data), (("a2").data)),
         ((("a2").data), (("a3").data)), ((("a3").data), (("a4").data)),
         ((("a4").data), (("a5").data)), ((("a5").data), (("a6").data)),
         ((("a6").data), (("a7").data)), ((("a7").data), (("a8").data)),
         ((("a8").data), (("a9").data)), ((("a9").data), (("b0").data)),
         ((("b0").data), (("b1").data))] [] []).length = 6) := by
  refine ⟨by decide, by decide, by decide⟩

/-- C3 (amended): with the feature flag on, for every variable the compiler
walks its father-only chain and separately its mother-only chain, stopping
only at the first ancestor missing from the relevant parent map (there is no
10-step cap); the ancestor at generation distance `j` contributes a row
`child - ancestor ≤ min(avg5*j, avg10*10)` for `5 ≤ j ≤ 9` and a row
`child - ancestor ≤ avg10*j` at every distance `j ≥ 10` (not only the 10th),
distances 1-4 contributing nothing — so a chain of `n` ancestors contributes
exactly `n - 4` rows. -/
theorem c3_average_rows_amended (vars : List Str) (fathers mothers : AList)
    (ub : List (Row × ℤ)) :
    compile_ub true vars fathers mothers
        = make_average_constraints vars fathers mothers
            (make_relationship_constraints fathers mothers)
    ∧ make_average_constraints vars fathers mothers ub
        = (ub ++ vars.flatMap (fun child =>
            avgRowsFrom child MAX_AVERAGE_AGE_FOR_05_MALE_GENERATIONS
              MAX_AVERAGE_AGE_FOR_10_MALE_GENERATIONS 0
              (chainF fathers child (fathers.length + 1))))
          ++ vars.flatMap (fun child =>
            avgRowsFrom child MAX_AVERAGE_AGE_FOR_05_FEMALE_GENERATIONS
              MAX_AVERAGE_AGE_FOR_10_FEMALE_GENERATIONS 0
              (chainF mothers child (mothers.length + 1)))
    ∧ (∀ parents cur fuel, (chainF parents cur fuel).length < fuel →
        ∀ k x, (cur :: chainF parents cur fuel).get? k = some x →
          (chainF parents cur fuel).get? k = alookup parents x)
    ∧ (∀ child a5 a10 ch,
        (avgRowsFrom child a5 a10 0 ch).length = ch.length - 4
        ∧ ∀ k p, ch.get? k = some p →
            (10 ≤ k + 1 →
              (avgRow child p, a5 * 0 + a10 * ((k + 1 : ℕ) : ℤ)) ∈ avgRowsFrom child a5 a10 0 ch)
            ∧ (5 ≤ k + 1 → k + 1 ≤ 9 →
              (avgRow child p, min (a5 * ((k + 1 : ℕ) : ℤ)) (a10 * 10))
                ∈ avgRowsFrom child a5 a10 0 ch)) := by
  refine ⟨by simp [compile_ub], ?_, fun parents cur fuel => chainF_link parents fuel cur, ?_⟩
  · rw [make_average_constraints]
    simp only [avgLoop_eq_chain]
  · intro child a5 a10 ch
    constructor
    · rw [avgRowsFrom_length]
      omega
    · intro k p hget
      have h := avgRowsFrom_mem child a5 a10 ch 0 k p hget
      have heq : 0 + k + 1 = k + 1 := by omega
      rw [heq] at h
      constructor
      · intro h10
        have hb : a5 * 0 + a10 * ((k + 1 : ℕ) : ℤ) = a10 * ((k + 1 : ℕ) : ℤ) := by ring
        rw [hb]
        exact h.1 h10
      · exact h.2

/-- Witness for C3 (amended), on a concrete ten-deep chain. -/
theorem c3_average_rows_amended_witness :
    (avgRowsFrom (("c").data) 60 45 0
        [(("p1").data), (("p2").data), (("p3").data), (("p4").data), (("p5").data),
         (("p6").data), (("p7").data), (("p8").data), (("p9").data), (("q0").data)]).length
      = ([(("p1").data), (("p2").data), (("p3").data), (("p4").data), (("p5").data),
         (("p6").data), (("p7").data), (("p8").data), (("p9").data),
         (("q0").data)] : List Str).length - 4
    ∧ (avgRow (("c").data) (("q0").data), (60 : ℤ) * 0 + (45 : ℤ) * ((9 + 1 : ℕ) : ℤ))
        ∈ avgRowsFrom (("c").data) 60 45 0
          [(("p1").data), (("p2").data), (("p3").data), (("p4").data), (("p5").data),
           (("p6").data), (("p7").data), (("p8").data), (("p9").data), (("q0").data)] := by
  have happ := (c3_average_rows_amended [] [] [] []).2.2.2 (("c").data) 60 45
    [(("p1").data), (("p2").data), (("p3").data), (("p4").data), (("p5").data),
     (("p6").data), (("p7").data), (("p8").data), (("p9").data), (("q0").data)]
  exact ⟨happ.1, (happ.2 9 (("q0").data) (by decide)).1 (by decide)⟩

/-- C5 (code bug): a deferred `>=` line does abort compilation with the
unsupported-operator error — it is never reinterpreted — but the number the
message carries is the running inequality-row index `len(b_ub) - 1`
(src line 221 formats `i`, where every sibling raise in the same function
formats the loop's line number `l`): with an empty inequality system, input
line 7 is reported as line -1, and with a four-row system as line 3. -/
theorem c5_wrong_line_number :
    parse_inequalities [(7, (("a >= 5").data))] [(("a").data)] []
        = .error (.geNotAllowed (-1))
    ∧ parse_inequalities [(9, (("a >= 5").data))] [(("a").data)]
          [(zeroRow, 0), (zeroRow, 0), (zeroRow, 0), (zeroRow, 0)]
        = .error (.geNotAllowed 3)
    ∧ ((-1 : ℤ) ≠ (7 : ℤ)) ∧ ((3 : ℤ) ≠ (9 : ℤ)) :=
  ⟨rfl, rfl, by decide, by decide⟩

theorem coefStep_ok (cols : List Str) (l : ℕ) (r : Row) (item : Str) (r2 : Row)
    (h : coefStep cols l r item = .ok r2) :
    r2 = updRow r (tokName item) (tokCoef item) := by
  rw [coefStep] at h
  split_ifs at h with h0 hm hmem hp hpmem hbmem
  all_goals cases h
  all_goals simp [tokName, tokCoef, *]

theorem coefFold_ok (cols : List Str) (l : ℕ) :
    ∀ toks r row, coefFold cols l r toks = .ok row →
      (∀ v, v ∉ toks.map tokName → row v = r v)
      ∧ ((toks.map tokName).Nodup → ∀ t ∈ toks, row (tokName t) = tokCoef t) := by
  intro toks
  induction toks with
  | nil =>
    intro r row h
    cases h
    exact ⟨fun v _ => rfl, fun _ t ht => absurd ht (List.not_mem_nil t)⟩
  | cons item rest ih =>
    intro r row h
    rw [coefFold] at h
    cases hstep : coefStep cols l r item with
    | error e => rw [hstep] at h; cases h
    | ok r2 =>
      rw [hstep] at h
      have hr2 := coefStep_ok cols l r item r2 hstep
      have hrec := ih r2 row h
      constructor
      · intro v hv
        simp only [List.map_cons, List.mem_cons] at hv
        push_neg at hv
        rw [hrec.1 v (by simpa using hv.2), hr2, updRow_other _ _ _ _ hv.1]
      · intro hnd t ht
        simp only [List.map_cons, List.nodup_cons] at hnd
        rcases List.mem_cons.mp ht with heq | htl
        · subst heq
          rw [hrec.1 (tokName t) (by simpa using hnd.1), hr2, updRow_same]
        · exact hrec.2 hnd.2 t htl

/-- C6: a deferred line lacking `=` (hence also lacking `<=`) dies with the
fatal grammar error; a line with `<=` (and not `>=`) splitting as
`lhs <= rhs` appends exactly one inequality row, a line with bare `=` one
equality row; the RHS must parse as an integer and a non-integer is fatal;
the LHS is split on whitespace into unit-coefficient terms — after removing
duplicate-name overwrites, a `-`-prefixed name contributes -1, a
`+`-prefixed or bare name +1, and every unmentioned variable keeps
coefficient 0. -/
theorem c6_expression_rows (cols : List Str) (ub eqs : List (Row × ℤ)) (l : ℕ) (raw : Str)
    (rest : List (ℕ × Str)) :
    (hasSub (['=']) (stripC raw) = false →
        piAux cols ub eqs ((l, raw) :: rest) = .error (.noEquality ((ub.length : ℤ) - 1)))
    ∧ (∀ first second row b,
        hasSub (['=']) (stripC raw) = true →
        hasSub (['>', '=']) (stripC raw) = false →
        hasSub (['<', '=']) (stripC raw) = true →
        splitSub (['<', '=']) (stripC raw) = [first, second] →
        coefFold cols l zeroRow (tokensOf first) = .ok row →
        parseInt second = some b →
        piAux cols ub eqs ((l, raw) :: rest) = piAux cols (ub ++ [(row, b)]) eqs rest)
    ∧ (∀ first second row,
        hasSub (['=']) (stripC raw) = true →
        hasSub (['>', '=']) (stripC raw) = false →
        hasSub (['<', '=']) (stripC raw) = true →
        splitSub (['<', '=']) (stripC raw) = [first, second] →
        coefFold cols l zeroRow (tokensOf first) = .ok row →
        parseInt second = none →
        piAux cols ub eqs ((l, raw) :: rest) = .error (.intParse second))
    ∧ (∀ first second row b,
        hasSub (['=']) (stripC raw) = true →
        hasSub (['>', '=']) (stripC raw) = false →
        hasSub (['<', '=']) (stripC raw) = false →
        splitSub (['=']) (stripC raw) = [first, second] →
        coefFold cols l zeroRow (tokensOf first) = .ok row →
        parseInt second = some b →
        piAux cols ub eqs ((l, raw) :: rest) = piAux cols ub (eqs ++ [(row, b)]) rest)
    ∧ (∀ toks r row, coefFold cols l r toks = .ok row →
        (∀ v, v ∉ toks.map tokName → row v = r v)
        ∧ ((toks.map tokName).Nodup → ∀ t ∈ toks, row (tokName t) = tokCoef t))
    ∧ (∀ t : Str, (isPre (['-']) t = true → tokCoef t = -1)
        ∧ (isPre (['-']) t = false → tokCoef t = 1)) := by
  refine ⟨?_, ?_, ?_, ?_, coefFold_ok cols l, ?_⟩
  · intro h1
    simp only [piAux, h1]
    rfl
  · intro first second row b h1 h2 h3 h4 h5 h6
    simp only [piAux, h1, h2, h3, h4, h5, h6]
    norm_num
  · intro first second row h1 h2 h3 h4 h5 h6
    simp only [piAux, h1, h2, h3, h4, h5, h6]
    norm_num
  · intro first second row b h1 h2 h3 h4 h5 h6
    simp only [piAux, h1, h2, h3, h4, h5, h6]
    norm_num
  · intro t
    constructor
    · intro h
      simp [tokCoef, h]
    · intro h
      simp [tokCoef, h]

/-- Witness for C6: the line `x -y <= 5` over columns `x`, `y` appends the
single row `x - y ≤ 5`. -/
theorem c6_expression_rows_witness :
    piAux [(("x").data), (("y").data)] [] [] [(3, (("x -y <= 5").data))]
        = piAux [(("x").data), (("y").data)]
            ([] ++ [(updRow (updRow zeroRow (("x").data) 1) (("y").data) (-1), 5)]) [] []
    ∧ (updRow (updRow zeroRow (("x").data) 1) (("y").data) (-1)) (tokName (("-y").data))
        = tokCoef (("-y").data)
    ∧ (updRow (updRow zeroRow (("x").data) 1) (("y").data) (-1)) (tokName (("x").data))
        = tokCoef (("x").data) := by
  have happ := c6_expression_rows [(("x").data), (("y").data)] [] [] 3
    (("x -y <= 5").data) []
  have hfold : coefFold [(("x").data), (("y").data)] 3 zeroRow
      (tokensOf (("x -y ").data))
      = .ok (updRow (updRow zeroRow (("x").data) 1) (("y").data) (-1)) := rfl
  refine ⟨happ.2.1 (("x -y ").data) ((" 5").data)
      (updRow (updRow zeroRow (("x").data) 1) (("y").data) (-1)) 5
      (by decide) (by decide) (by decide) (by decide) hfold (by decide), ?_, ?_⟩
  · have hsem := (happ.2.2.2.2.1 (tokensOf (("x -y ").data)) zeroRow
      (updRow (updRow zeroRow (("x").data) 1) (("y").data) (-1)) hfold).2 (by decide)
    exact hsem (("-y").data) (by decide)
  · have hsem := (happ.2.2.2.2.1 (tokensOf (("x -y ").data)) zeroRow
      (updRow (updRow zeroRow (("x").data) 1) (("y").data) (-1)) hfold).2 (by decide)
    exact hsem (("x").data) (by decide)

theorem takeWhile_idem (p : Char → Bool) : ∀ l : Str, (l.takeWhile p).takeWhile p = l.takeWhile p := by
  intro l
  induction l with
  | nil => rfl
  | cons c rest ih =>
    cases hp : p c
    · simp [List.takeWhile_cons, hp]
    · simp [List.takeWhile_cons, hp, ih]

theorem hasSub_singleton (c : Char) : ∀ l : Str, hasSub [c] l = true ↔ c ∈ l := by
  intro l
  induction l with
  | nil => simp [hasSub, isPre]
  | cons d rest ih =>
    rw [hasSub]
    simp only [isPre, Bool.or_eq_true, Bool.and_eq_true, ih, List.mem_cons]
    constructor
    · rintro (⟨h1, _⟩ | h2)
      · exact Or.inl (of_decide_eq_true h1)
      · exact Or.inr h2
    · rintro (h1 | h2)
      · exact Or.inl ⟨decide_eq_true h1, trivial⟩
      · exact Or.inr h2

theorem mem_dropWhile_of_mem (p : Char → Bool) (c : Char) (hc : p c = false) :
    ∀ l : Str, c ∈ l → c ∈ l.dropWhile p := by
  intro l
  induction l with
  | nil => intro h; cases h
  | cons d rest ih =>
    intro h
    rw [List.dropWhile]
    cases hpd : p d
    · simpa using h
    · rcases List.mem_cons.mp h with heq | hmem
      · rw [heq, hpd] at hc
        cases hc
      · exact ih hmem

theorem mem_of_mem_dropWhile (p : Char → Bool) (c : Char) :
    ∀ l : Str, c ∈ l.dropWhile p → c ∈ l := by
  intro l
  induction l with
  | nil => intro h; cases h
  | cons d rest ih =>
    intro h
    rw [List.dropWhile] at h
    cases hpd : p d
    · rw [hpd] at h
      simpa using h
    · rw [hpd] at h
      exact List.mem_cons_of_mem _ (ih h)

theorem mem_trimStr_iff (c : Char) (hc : c.isWhitespace = false) (l : Str) :
    c ∈ trimStr l ↔ c ∈ l := by
  rw [trimStr]
  constructor
  · intro h
    rw [List.mem_reverse] at h
    have h2 := mem_of_mem_dropWhile _ _ _ h
    rw [List.mem_reverse] at h2
    exact mem_of_mem_dropWhile _ _ _ h2
  · intro h
    rw [List.mem_reverse]
    apply mem_dropWhile_of_mem _ _ hc
    rw [List.mem_reverse]
    exact mem_dropWhile_of_mem _ _ hc _ h

theorem mem_takeWhile_sat (p : Char → Bool) (c : Char) :
    ∀ l : Str, c ∈ l.takeWhile p → p c = true := by
  intro l
  induction l with
  | nil => intro h; cases h
  | cons d rest ih =>
    intro h
    rw [List.takeWhile] at h
    cases hpd : p d
    · rw [hpd] at h
      cases h
    · rw [hpd] at h
      rcases List.mem_cons.mp h with heq | hmem
      · rw [heq]
        exact hpd
      · exact ih hmem

theorem stripC_nohash (raw : Str) : hasSub (['#']) (stripC raw) = false := by
  by_contra h
  rw [Bool.not_eq_false, hasSub_singleton] at h
  rw [stripC, mem_trimStr_iff _ (by decide)] at h
  have := mem_takeWhile_sat _ _ _ h
  simp at this

theorem stripC_beforeHash (raw : Str) : stripC (beforeHash raw) = stripC raw := by
  rw [stripC, stripC, beforeHash, beforeHash, takeWhile_idem]

theorem vclassify_beforeHash (raw : Str) : vclassify (beforeHash raw) = vclassify raw := by
  rw [vclassify, vclassify, stripC_beforeHash]

theorem vclassify_remLine (raw l : Str) (h : vclassify raw = .remLine l) : l = stripC raw := by
  rw [vclassify] at h
  split at h
  · split at h
    · cases h
    · cases h
  · cases h
    rfl

theorem pvAux_rem_nohash :
    ∀ lines (vars : AList) (rem : List (ℕ × Str)),
      (∀ p ∈ rem, hasSub (['#']) p.2 = false) →
      ∀ g rem2, pvAux vars rem lines = .ok (g, rem2) →
        ∀ p ∈ rem2, hasSub (['#']) p.2 = false := by
  intro lines
  induction lines with
  | nil =>
    intro vars rem hacc g rem2 h
    cases h
    exact hacc
  | cons hd rest ih =>
    intro vars rem hacc g rem2 h
    obtain ⟨i, raw⟩ := hd
    rw [pvAux] at h
    cases hv : vclassify raw with
    | decl gd n =>
      rw [hv] at h
      exact ih _ _ hacc g rem2 h
    | declErr =>
      rw [hv] at h
      cases h
    | remLine l =>
      rw [hv] at h
      refine ih _ _ ?_ g rem2 h
      intro p hp
      rcases List.mem_append.mp hp with hp1 | hp2
      · exact hacc p hp1
      · rcases List.mem_singleton.mp hp2 with rfl
        rw [vclassify_remLine raw l hv]
        exact stripC_nohash raw

/-- C4: comments are stripped before classification on every line class.
(a) `parse_variables` treats a raw line and its pre-`#` prefix identically;
(b) every line it defers to the later stages is comment-free;
(c) the `'=' in line` test that decides between deferral and
relationship treatment, applied to the text `parse_variables` actually
stores, equals the test for `=` in the text before the `#`;
(d) a stored line containing `=` is deferred untouched by
`parse_relationships`. -/
theorem c4_comment_stripping :
    (∀ (vars : AList) rem i (raw : Str) rest,
        pvAux vars rem ((i, raw) :: rest) = pvAux vars rem ((i, beforeHash raw) :: rest))
    ∧ (∀ lines g rem2, parse_variables lines = .ok (g, rem2) →
        ∀ p ∈ rem2, hasSub (['#']) p.2 = false)
    ∧ (∀ raw : Str, hasSub (['=']) (stripC raw) = hasSub (['=']) (beforeHash raw))
    ∧ (∀ (genders fathers mothers : AList) acc i (line : Str) rest,
        hasSub (['=']) line = true →
        prAux genders fathers mothers acc ((i, line) :: rest)
          = prAux genders fathers mothers (acc ++ [(i, line)]) rest) := by
  refine ⟨?_, ?_, ?_, ?_⟩
  · intro vars rem i raw rest
    rw [pvAux, pvAux, vclassify_beforeHash]
  · intro lines g rem2 h
    exact pvAux_rem_nohash lines [] [] (fun p hp => absurd hp (List.not_mem_nil p)) g rem2 h
  · intro raw
    by_cases h : ('=') ∈ beforeHash raw
    · rw [(hasSub_singleton _ _).mpr h, (hasSub_singleton _ _).mpr ?_]
      rw [stripC, mem_trimStr_iff _ (by decide)]
      exact h
    · have h2 : ('=') ∉ stripC raw := by
        rw [stripC, mem_trimStr_iff _ (by decide)]
        exact h
      have e1 : hasSub (['=']) (stripC raw) = false := by
        by_contra hx
        rw [Bool.not_eq_false, hasSub_singleton] at hx
        exact h2 hx
      have e2 : hasSub (['=']) (beforeHash raw) = false := by
        by_contra hx
        rw [Bool.not_eq_false, hasSub_singleton] at hx
        exact h hx
      rw [e1, e2]
  · intro genders fathers mothers acc i line rest h
    rw [prAux, h]
    rfl

/-- Witness for C4, on the line `c f # note = x`: the `#` is stripped before
the `=` inside the comment can cause deferral, so the stored line `c f` is
classified as a relationship; a stored line `f = 1950` is deferred. -/
theorem c4_comment_stripping_witness :
    (∀ p ∈ [(1, (("c f").data))], hasSub (['#']) p.2 = false)
    ∧ hasSub (['=']) (stripC (("c f # note = x").data))
        = hasSub (['=']) (beforeHash (("c f # note = x").data))
    ∧ prAux [] [] [] [] [(2, (("f = 1950").data))]
        = prAux [] [] [] ([] ++ [(2, (("f = 1950").data))]) [] := by
  refine ⟨?_, c4_comment_stripping.2.2.1 (("c f # note = x").data), ?_⟩
  · exact c4_comment_stripping.2.1 [(0, (("male f # x").data)), (1, (("c f # rel").data))]
      [((("f").data), (("male").data))] [(1, (("c f").data))] (by decide)
  · exact c4_comment_stripping.2.2.2 [] [] [] [] 2 (("f = 1950").data) [] (by decide)

theorem alookup_setKey (m : AList) (k v x : Str) :
    alookup (setKey m k v) x = if k = x then some v else alookup m x := by
  induction m with
  | nil => simp [setKey, alookup]
  | cons q rest ih =>
    obtain ⟨k2, v2⟩ := q
    by_cases h : k2 = k
    · subst h
      rw [setKey, if_pos rfl, alookup, alookup]
      by_cases h2 : k2 = x
      · rw [if_pos h2, if_pos h2]
      · rw [if_neg h2, if_neg h2, if_neg h2]
    · rw [setKey, if_neg h, alookup, alookup]
      by_cases h2 : k2 = x
      · have hkx : ¬ k = x := fun hkx => h (h2.trans hkx.symm)
        rw [if_pos h2, if_neg hkx, if_pos h2]
      · rw [if_neg h2, if_neg h2, ih]

theorem keys_setKey (m : AList) (k v : Str) :
    (setKey m k v).map Prod.fst
      = if alookup m k = none then m.map Prod.fst ++ [k] else m.map Prod.fst := by
  induction m with
  | nil => simp [setKey, alookup]
  | cons q rest ih =>
    obtain ⟨k2, v2⟩ := q
    rw [setKey, alookup]
    by_cases h : k2 = k
    · rw [if_pos h, if_pos h]
      simp [h]
    · rw [if_neg h, if_neg h]
      simp only [List.map_cons, ih]
      by_cases h2 : alookup rest k = none
      · rw [if_pos h2, if_pos h2]
        rfl
      · rw [if_neg h2, if_neg h2]

theorem gequiv_refl (m : AList) : gequiv m m := ⟨fun _ => rfl, List.Perm.refl _⟩

theorem gequiv_trans {m1 m2 m3 : AList} (h1 : gequiv m1 m2) (h2 : gequiv m2 m3) :
    gequiv m1 m3 :=
  ⟨fun k => (h1.1 k).trans (h2.1 k), h1.2.trans h2.2⟩

theorem gequiv_setKey {m1 m2 : AList} (h : gequiv m1 m2) (k v : Str) :
    gequiv (setKey m1 k v) (setKey m2 k v) := by
  constructor
  · intro x
    rw [alookup_setKey, alookup_setKey, h.1 x]
  · rw [keys_setKey, keys_setKey, ← h.1 k]
    by_cases h2 : alookup m1 k = none
    · rw [if_pos h2, if_pos h2]
      exact h.2.append (List.Perm.refl [k])
    · rw [if_neg h2, if_neg h2]
      exact h.2

theorem setKey_swap (m : AList) (a x b y : Str) (hab : a ≠ b) :
    gequiv (setKey (setKey m a x) b y) (setKey (setKey m b y) a x) := by
  have hba : ¬ b = a := fun hh => hab hh.symm
  constructor
  · intro k
    rw [alookup_setKey, alookup_setKey, alookup_setKey, alookup_setKey]
    by_cases hb : b = k
    · by_cases ha : a = k
      · exact absurd (ha.trans hb.symm) hab
      · simp [ha, hb]
    · by_cases ha : a = k
      · simp [ha, hb]
      · simp [ha, hb]
  · have e1 : alookup (setKey m a x) b = alookup m b := by
      rw [alookup_setKey, if_neg hab]
    have e2 : alookup (setKey m b y) a = alookup m a := by
      rw [alookup_setKey, if_neg hba]
    rw [keys_setKey, keys_setKey, keys_setKey, keys_setKey, e1, e2]
    by_cases hma : alookup m a = none <;> by_cases hmb : alookup m b = none <;>
      simp [hma, hmb]
    exact List.Perm.append_left _ (List.Perm.swap b a [])

theorem pvEquiv_refl (r : Except Err (AList × List (ℕ × Str))) : pvEquiv r r := by
  cases r with
  | error e => exact rfl
  | ok v =>
    obtain ⟨g, rem⟩ := v
    exact ⟨gequiv_refl g, rfl⟩

theorem pvEquiv_trans {r1 r2 r3 : Except Err (AList × List (ℕ × Str))}
    (h1 : pvEquiv r1 r2) (h2 : pvEquiv r2 r3) : pvEquiv r1 r3 := by
  cases r1 with
  | error e1 =>
    cases r2 with
    | error e2 =>
      cases r3 with
      | error e3 => exact (h1 : e1 = e2).trans h2
      | ok v3 =>
        obtain ⟨g3, m3⟩ := v3
        exact h2.elim
    | ok v2 =>
      obtain ⟨g2, m2⟩ := v2
      exact h1.elim
  | ok v1 =>
    obtain ⟨g1, m1⟩ := v1
    cases r2 with
    | error e2 => exact h1.elim
    | ok v2 =>
      obtain ⟨g2, m2⟩ := v2
      cases r3 with
      | error e3 => exact h2.elim
      | ok v3 =>
        obtain ⟨g3, m3⟩ := v3
        exact ⟨gequiv_trans h1.1 h2.1, h1.2.trans h2.2⟩

theorem pvAux_congr : ∀ (ls : List (ℕ × Str)) (vars1 vars2 : AList) rem,
    gequiv vars1 vars2 → pvEquiv (pvAux vars1 rem ls) (pvAux vars2 rem ls) := by
  intro ls
  induction ls with
  | nil => intro v1 v2 rem h; exact ⟨h, rfl⟩
  | cons q rest ih =>
    intro v1 v2 rem h
    obtain ⟨i, raw⟩ := q
    rw [pvAux, pvAux]
    cases hv : vclassify raw with
    | decl g n => exact ih _ _ rem (gequiv_setKey h n g)
    | declErr => exact rfl
    | remLine l => exact ih _ _ _ h

theorem pvAux_insert :
    ∀ (xs : List (ℕ × Str)) (vars : AList) rem (i : ℕ) (d g n : Str) ys,
      vclassify d = .decl g n →
      (∀ p ∈ xs, declOf p.2 ≠ some n) →
      pvEquiv (pvAux vars rem (xs ++ (i, d) :: ys)) (pvAux (setKey vars n g) rem (xs ++ ys)) := by
  intro xs
  induction xs with
  | nil =>
    intro vars rem i d g n ys hd _
    rw [List.nil_append, List.nil_append, pvAux, hd]
    exact pvEquiv_refl _
  | cons q rest ih =>
    intro vars rem i d g n ys hd hxs
    obtain ⟨j, raw⟩ := q
    rw [List.cons_append, List.cons_append, pvAux, pvAux]
    cases hv : vclassify raw with
    | decl g2 m =>
      have hm : m ≠ n := by
        have hq := hxs (j, raw) (List.mem_cons_self _ _)
        simp only [declOf, hv] at hq
        intro hh
        exact hq (by rw [hh])
      have h1 := ih (setKey vars m g2) rem i d g n ys hd
        (fun p hp => hxs p (List.mem_cons_of_mem _ hp))
      have h2 := pvAux_congr (rest ++ ys) _ _ rem (setKey_swap vars m g2 n g hm)
      exact pvEquiv_trans h1 h2
    | declErr => exact rfl
    | remLine l =>
      exact ih vars (rem ++ [(j, l)]) i d g n ys hd
        (fun p hp => hxs p (List.mem_cons_of_mem _ hp))

theorem prAux_congr (g1 g2 : AList) (h : ∀ k, alookup g1 k = alookup g2 k) :
    ∀ (ls : List (ℕ × Str)) fathers mothers acc,
      prAux g1 fathers mothers acc ls = prAux g2 fathers mothers acc ls := by
  intro ls
  induction ls with
  | nil => intro f m acc; rfl
  | cons q rest ih =>
    intro f m acc
    obtain ⟨i, line⟩ := q
    rw [prAux, prAux]
    cases he : hasSub (['=']) line
    · simp only [Bool.false_eq_true, if_false]
      cases hsp : splitSub ([' ']) (stripC line) with
      | nil => rfl
      | cons a as =>
        cases as with
        | nil => rfl
        | cons b bs =>
          cases bs with
          | cons c cs => rfl
          | nil =>
            simp only [h]
            split_ifs
            all_goals first | rfl | exact ih _ _ _
    · simp only [if_true]
      exact ih _ _ _

/-- C10: the position of a gender declaration is immaterial.  If `d` declares
the name `n` with gender `g` and no line before it declares `n`, then parsing
with `d` left in place and parsing with `d` moved to the front produce the
same relationship maps, the same deferred lines, the same errors, and resolve
every name to the same gender — in particular a relationship line referencing
`n` ahead of its declaration parses exactly as if the declaration came
first. -/
theorem c10_declaration_order (xs ys : List (ℕ × Str)) (i : ℕ) (d g n : Str)
    (hd : vclassify d = .decl g n)
    (hxs : ∀ p ∈ xs, declOf p.2 ≠ some n) :
    parseAll (xs ++ (i, d) :: ys) = parseAll ((i, d) :: (xs ++ ys))
    ∧ (∀ k, gLookupOf (xs ++ (i, d) :: ys) k = gLookupOf ((i, d) :: (xs ++ ys)) k) := by
  have hpv : pvEquiv (parse_variables (xs ++ (i, d) :: ys))
      (parse_variables ((i, d) :: (xs ++ ys))) := by
    rw [parse_variables, parse_variables]
    have h2 : pvAux ([] : AList) [] ((i, d) :: (xs ++ ys))
        = pvAux (setKey [] n g) [] (xs ++ ys) := by
      rw [pvAux, hd]
    rw [h2]
    exact pvAux_insert xs [] [] i d g n ys hd hxs
  cases hA : parse_variables (xs ++ (i, d) :: ys) with
  | error e =>
    cases hB : parse_variables ((i, d) :: (xs ++ ys)) with
    | error e2 =>
      rw [hA, hB] at hpv
      have he : e = e2 := hpv
      constructor
      · rw [parseAll, parseAll, hA, hB, he]
      · intro k
        rw [gLookupOf, gLookupOf, hA, hB]
    | ok v =>
      obtain ⟨g2, rem2⟩ := v
      rw [hA, hB] at hpv
      exact hpv.elim
  | ok v =>
    obtain ⟨g1, rem1⟩ := v
    cases hB : parse_variables ((i, d) :: (xs ++ ys)) with
    | error e2 =>
      rw [hA, hB] at hpv
      exact hpv.elim
    | ok v2 =>
      obtain ⟨g2, rem2⟩ := v2
      rw [hA, hB] at hpv
      obtain ⟨hgq, hrem⟩ := hpv
      constructor
      · rw [parseAll, parseAll, hA, hB, hrem]
        exact prAux_congr g1 g2 hgq.1 rem2 [] [] []
      · intro k
        rw [gLookupOf, gLookupOf, hA, hB]
        exact hgq.1 k

/-- Witness for C10: the relationship line `c f` appears before `male f` is
declared; parsing succeeds and agrees with the declaration-first order. -/
theorem c10_declaration_order_witness :
    parseAll ([(0, (("male c").data)), (1, (("c f").data))]
          ++ (2, (("male f").data)) :: [])
        = parseAll ((2, (("male f").data))
          :: ([(0, (("male c").data)), (1, (("c f").data))] ++ []))
    ∧ gLookupOf ([(0, (("male c").data)), (1, (("c f").data))]
          ++ (2, (("male f").data)) :: []) (("f").data)
        = gLookupOf ((2, (("male f").data))
          :: ([(0, (("male c").data)), (1, (("c f").data))] ++ [])) (("f").data) := by
  have happ := c10_declaration_order [(0, (("male c").data)), (1, (("c f").data))] []
    2 (("male f").data) (("male").data) (("f").data) (by decide) (by decide)
  exact ⟨happ.1, happ.2 (("f").data)⟩

end Quraysh
